import Mathlib

/-!
Verification development for the multi-agent badminton-scheduler repository.

The repository consists of three FastAPI services (Mr. Bean, Mr. Joy, the
Organizer) plus a Streamlit dashboard.  The definitions below are a shallow
embedding of the algorithmic content of those files:

* time strings ("HH:MM", "HH:MM-HH:MM") are embedded as `List Char`,
  Python string comparison is code-point lexicographic order (`lexLe`);
* Python dicts keyed by date strings are embedded as association lists;
* calls to hosted language models and remote HTTP endpoints are embedded by
  passing the (parsed) response of the external system as an explicit
  argument, so every function is a pure function of its inputs and of the
  responses the external world happened to return;
* Python exceptions are embedded with `Except`.
-/

/-- Convert a string literal to the character-list representation used
throughout this development. -/
def chars (s : String) : List Char := s.toList

/-- Numeric value of a digit character (code point minus 48). -/
def dv (c : Char) : Nat := c.toNat - 48

/-- Decides whether a character is an ASCII digit, by code point. -/
def is_digit_ch (c : Char) : Bool := 48 ≤ c.toNat && c.toNat ≤ 57

/-- Parse a digit string into a natural number, most significant digit
first; mirrors Python `int` on well-formed digit strings. -/
def parse_nat (l : List Char) : Nat := l.foldl (fun acc c => acc * 10 + dv c) 0

/-- Split a character list on a separator character; mirrors Python
`str.split(sep)` (so the empty string splits to `[[]]`). -/
def splitOnChar (sep : Char) : List Char → List (List Char)
  | [] => [[]]
  | c :: cs =>
    let r := splitOnChar sep cs
    if c = sep then [] :: r
    else (c :: r.headI) :: r.tail

theorem splitOnChar_no_sep (sep : Char) (a : List Char) (ha : sep ∉ a) :
    splitOnChar sep a = [a] := by
  induction a with
  | nil => simp [splitOnChar]
  | cons c cs ih =>
    have hc : c ≠ sep := fun h => ha (h ▸ List.mem_cons_self c cs)
    have hcs : sep ∉ cs := fun h => ha (List.mem_cons_of_mem c h)
    simp [splitOnChar, ih hcs, hc]

theorem splitOnChar_append (sep : Char) (a r : List Char) (ha : sep ∉ a) :
    splitOnChar sep (a ++ sep :: r) = a :: splitOnChar sep r := by
  induction a with
  | nil => simp [splitOnChar]
  | cons c cs ih =>
    have hc : c ≠ sep := fun h => ha (h ▸ List.mem_cons_self c cs)
    have hcs : sep ∉ cs := fun h => ha (List.mem_cons_of_mem c h)
    simp [splitOnChar, ih hcs, hc]

/-- Python-string lexicographic order on code points, as a Boolean
relation (`a ≤ b` in Python string comparison). -/
def lexLe : List Char → List Char → Bool
  | [], _ => true
  | _ :: _, [] => false
  | a :: as_, b :: bs => if a.toNat = b.toNat then lexLe as_ bs else decide (a.toNat < b.toNat)

theorem lexLe_nil_left (b : List Char) : lexLe [] b = true := by cases b <;> rfl

theorem lexLe_cons_nil (a : Char) (as_ : List Char) : lexLe (a :: as_) [] = false := rfl

theorem lexLe_cons_cons (a b : Char) (as_ bs : List Char) :
    lexLe (a :: as_) (b :: bs) =
      if a.toNat = b.toNat then lexLe as_ bs else decide (a.toNat < b.toNat) := rfl

theorem lexLe_total (a : List Char) : ∀ b, lexLe a b = true ∨ lexLe b a = true := by
  induction a with
  | nil => intro b; left; exact lexLe_nil_left b
  | cons c cs ih =>
    intro b
    cases b with
    | nil => right; exact lexLe_nil_left _
    | cons d ds =>
      simp only [lexLe_cons_cons]
      by_cases h : c.toNat = d.toNat
      · rw [if_pos h, if_pos h.symm]
        exact ih ds
      · have h' : d.toNat ≠ c.toNat := fun hh => h hh.symm
        rw [if_neg h, if_neg h']
        rcases Nat.lt_or_ge c.toNat d.toNat with hlt | hge
        · left; exact decide_eq_true hlt
        · right
          exact decide_eq_true (lt_of_le_of_ne hge h')

theorem lexLe_trans (a : List Char) :
    ∀ b c, lexLe a b = true → lexLe b c = true → lexLe a c = true := by
  induction a with
  | nil => intro b c _ _; exact lexLe_nil_left c
  | cons x xs ih =>
    intro b c hab hbc
    cases b with
    | nil => simp [lexLe_cons_nil] at hab
    | cons y ys =>
      cases c with
      | nil => simp [lexLe_cons_nil] at hbc
      | cons z zs =>
        simp only [lexLe_cons_cons] at hab hbc ⊢
        by_cases hxy : x.toNat = y.toNat
        · by_cases hyz : y.toNat = z.toNat
          · have hxz : x.toNat = z.toNat := hxy.trans hyz
            simp only [hxy, if_pos rfl] at hab
            simp only [hyz, if_pos rfl] at hbc
            simp [hxz, ih ys zs hab hbc]
          · simp only [hyz, if_neg hyz] at hbc
            have hyz' : y.toNat < z.toNat := by simpa using hbc
            have hxz : x.toNat ≠ z.toNat := by omega
            have : x.toNat < z.toNat := by omega
            simp [hxz, this]
        · simp only [if_neg hxy] at hab
          have hxy' : x.toNat < y.toNat := by simpa using hab
          by_cases hyz : y.toNat = z.toNat
          · have hxz : x.toNat ≠ z.toNat := by omega
            have : x.toNat < z.toNat := by omega
            simp [hxz, this]
          · simp only [if_neg hyz] at hbc
            have hyz' : y.toNat < z.toNat := by simpa using hbc
            have hxz : x.toNat ≠ z.toNat := by omega
            have : x.toNat < z.toNat := by omega
            simp [hxz, this]

/-- Stable insertion into a list already processed by `sort_le`: the new
element goes after every element whose key is `le` it, matching the
stability of Python `list.sort`. -/
def insert_le {α : Type} (le : α → α → Bool) (a : α) : List α → List α
  | [] => [a]
  | b :: bs => if le b a then b :: insert_le le a bs else a :: b :: bs

/-- Stable insertion sort by a Boolean key order; output-equivalent to
Python `list.sort(key=...)`. -/
def sort_le {α : Type} (le : α → α → Bool) : List α → List α
  | [] => []
  | a :: as_ => insert_le le a (sort_le le as_)

theorem insert_le_perm {α : Type} (le : α → α → Bool) (a : α) (l : List α) :
    List.Perm (insert_le le a l) (a :: l) := by
  induction l with
  | nil => simp [insert_le]
  | cons b bs ih =>
    simp only [insert_le]
    split
    · exact ((ih.cons b).trans (List.Perm.swap a b bs))
    · exact List.Perm.refl _

theorem sort_le_perm {α : Type} (le : α → α → Bool) (l : List α) :
    List.Perm (sort_le le l) l := by
  induction l with
  | nil => simp [sort_le]
  | cons a as_ ih =>
    exact (insert_le_perm le a (sort_le le as_)).trans (ih.cons a)

theorem insert_le_mem {α : Type} (le : α → α → Bool) (a : α) (l : List α) (x : α) :
    x ∈ insert_le le a l ↔ x = a ∨ x ∈ l := by
  rw [(insert_le_perm le a l).mem_iff]
  simp

theorem sort_le_mem {α : Type} (le : α → α → Bool) (l : List α) (x : α) :
    x ∈ sort_le le l ↔ x ∈ l := (sort_le_perm le l).mem_iff

theorem sort_le_eq_nil_iff {α : Type} (le : α → α → Bool) (l : List α) :
    sort_le le l = [] ↔ l = [] := by
  constructor
  · intro h
    have := (sort_le_perm le l).length_eq
    rw [h] at this
    exact List.eq_nil_of_length_eq_zero this.symm
  · intro h; simp [h, sort_le]

theorem insert_le_pairwise {α : Type} (le : α → α → Bool)
    (htot : ∀ x y : α, le x y = true ∨ le y x = true)
    (htr : ∀ x y z : α, le x y = true → le y z = true → le x z = true)
    (a : α) (l : List α) (h : l.Pairwise (fun x y => le x y = true)) :
    (insert_le le a l).Pairwise (fun x y => le x y = true) := by
  induction l with
  | nil => simp [insert_le]
  | cons b bs ih =>
    rcases List.pairwise_cons.mp h with ⟨hb, hbs⟩
    simp only [insert_le]
    split
    · rename_i hba
      refine List.pairwise_cons.mpr ⟨?_, ih hbs⟩
      intro y hy
      rcases (insert_le_mem le a bs y).mp hy with rfl | hy'
      · exact hba
      · exact hb y hy'
    · rename_i hba
      have hab : le a b = true := by
        rcases htot a b with h' | h'
        · exact h'
        · exact absurd h' hba
      refine List.pairwise_cons.mpr ⟨?_, h⟩
      intro y hy
      rcases List.mem_cons.mp hy with rfl | hy'
      · exact hab
      · exact htr a b y hab (hb y hy')

theorem sort_le_pairwise {α : Type} (le : α → α → Bool)
    (htot : ∀ x y : α, le x y = true ∨ le y x = true)
    (htr : ∀ x y z : α, le x y = true → le y z = true → le x z = true)
    (l : List α) : (sort_le le l).Pairwise (fun x y => le x y = true) := by
  induction l with
  | nil => simp [sort_le]
  | cons a as_ ih => exact insert_le_pairwise le htot htr a _ ih

/-!
Data model shared by `agents/bean/bean_agent.py` and `agents/joy/joy_agent.py`:
appointment dicts `{"time": "HH:MM-HH:MM", "activity": ..., "type": ...}`,
day-schedule dicts `{"date", "day", "appointments"}`, and the module-level
diary dict mapping date strings to day schedules.  Dates are generated by
`strftime("%Y-%m-%d")` from consecutive days; we embed a calendar date as the
day count `Nat` and render it with `date_chars`, which keeps consecutive
dates distinct exactly as the formatted strings are.
-/

structure Appt where
  time : List Char
  activity : List Char
  type : List Char
deriving DecidableEq, Inhabited

structure DaySchedule where
  date : List Char
  day : List Char
  appointments : List Appt
deriving DecidableEq, Inhabited

/-- Python dict keyed by date string, embedded as an association list in
insertion order. -/
abbrev Diary : Type := List (List Char × DaySchedule)

/-- Dict membership plus lookup: `DIARY[date_str]` guarded by
`date_str not in DIARY`. -/
def lookupD (d : Diary) (k : List Char) : Option DaySchedule :=
  (d.find? (fun p => decide (p.1 = k))).map (fun p => p.2)

/-- In-place replacement of the schedule stored under an existing key. -/
def updateD (d : Diary) (k : List Char) (v : DaySchedule) : Diary :=
  d.map (fun p => if p.1 = k then (p.1, v) else p)

/-- Calendar-store lookup of one day (the `date_str not in DIARY` check plus
`DIARY[date_str]` that every endpoint performs). -/
def get_schedule (d : Diary) (k : List Char) : Option DaySchedule := lookupD d k

/-- Request body of the three POST endpoints (`TimeSlotQuery` in the agents). -/
structure TimeSlotQuery where
  date : List Char
  start_time : List Char
  end_time : List Char
  activity : List Char
deriving DecidableEq, Inhabited

/-- Render a day-count as the date key; consecutive days get distinct keys,
mirroring `strftime("%Y-%m-%d")`. -/
def date_chars (n : Nat) : List Char := Nat.toDigits 10 n

def weekday_names : List (List Char) :=
  [chars "Monday", chars "Tuesday", chars "Wednesday", chars "Thursday",
   chars "Friday", chars "Saturday", chars "Sunday"]

/-- Weekday label of a day-count, mirroring `strftime("%A")`. -/
def weekday_name (n : Nat) : List Char := weekday_names.getD (n % 7) []

/-- Mr. Bean's fixed daily template from `generate_bean_diary`
(14:00-16:00 is deliberately left free). -/
def bean_base_appointments : List Appt :=
  [⟨chars "08:00-09:00", chars "Breakfast with Teddy", chars "flexible"⟩,
   ⟨chars "09:00-10:00", chars "Morning walk in park", chars "leisure"⟩,
   ⟨chars "10:00-12:00", chars "Work at office", chars "fixed"⟩,
   ⟨chars "12:00-13:00", chars "Lunch break", chars "flexible"⟩,
   ⟨chars "13:00-14:00", chars "Quick errands", chars "leisure"⟩,
   ⟨chars "16:00-17:00", chars "Tea time", chars "flexible"⟩,
   ⟨chars "17:00-18:00", chars "Hobbies and TV", chars "leisure"⟩,
   ⟨chars "18:00-19:00", chars "Dinner preparation", chars "flexible"⟩]

/-- Day-offset-dependent appointment list of `generate_bean_diary`: the
extra lunch is inserted at index 3 every third day, the email check at
index 2 every fifth day, in that order. -/
def bean_day_appointments (day_offset : Nat) : List Appt :=
  let appts := bean_base_appointments
  let appts := if day_offset % 3 = 0 then
      appts.insertIdx 3 ⟨chars "12:30-13:00", chars "Lunch with friends", chars "flexible"⟩
    else appts
  let appts := if day_offset % 5 = 0 then
      appts.insertIdx 2 ⟨chars "09:30-10:00", chars "Check emails", chars "leisure"⟩
    else appts
  appts

/-- Translation of `generate_bean_diary`: ten consecutive days starting at
`start_date`, each carrying the template with its offset variations. -/
def generate_bean_diary (start_date : Nat) : Diary :=
  (List.range 10).map (fun day_offset =>
    let current_date := start_date + day_offset
    (date_chars current_date,
     ({ date := date_chars current_date,
        day := weekday_name current_date,
        appointments := bean_day_appointments day_offset } : DaySchedule)))

/-- Translation of the `/reset_diary` endpoint: the stored diary is
reassigned to a freshly generated default horizon; the previous state is
discarded wholesale. -/
def reset_diary (_diary : Diary) (today : Nat) : Diary := generate_bean_diary today

/-- Ordering key used by `BEAN_DIary[...]["appointments"].sort(key=lambda x: x["time"])`:
Python string comparison of the full `HH:MM-HH:MM` field. -/
def appt_time_le (x y : Appt) : Bool := lexLe x.time y.time

/-- Translation of the `/book_appointment` endpoint shared by both agents:
404 when the date is outside the horizon, otherwise append a `booked`
appointment and re-sort that day's appointments by their time string. -/
def book_appointment (diary : Diary) (query : TimeSlotQuery) : Except Nat (Diary × Appt) :=
  match lookupD diary query.date with
  | none => .error 404
  | some ds =>
    let new_appointment : Appt :=
      { time := query.start_time ++ '-' :: query.end_time,
        activity := query.activity,
        type := chars "booked" }
    let sorted := sort_le appt_time_le (ds.appointments ++ [new_appointment])
    .ok (updateD diary query.date { ds with appointments := sorted }, new_appointment)

/-- Effect of one `/book_appointment` call on the stored diary: the raised
404 leaves the module-level dict untouched. -/
def book_apply (diary : Diary) (query : TimeSlotQuery) : Diary :=
  match book_appointment diary query with
  | .ok (d2, _) => d2
  | .error _ => diary

/-!
Deterministic time arithmetic from `web_app.py` (`to_minutes` and
`time_overlaps`): the only rule-based overlap test in the repository, with
the half-open semantics `not (apt_end <= target_start or apt_start >= target_end)`.
Parsing failures are swallowed by the `except` clause and reported as
no-overlap, exactly as in the source.
-/

def to_minutes (t : List Char) : Option Nat :=
  match splitOnChar ':' t with
  | [h, m] =>
    if h ≠ [] ∧ m ≠ [] ∧ h.all is_digit_ch ∧ m.all is_digit_ch then
      some (parse_nat h * 60 + parse_nat m)
    else none
  | _ => none

def time_overlaps (apt_time target_start target_end : List Char) : Bool :=
  match splitOnChar '-' apt_time with
  | [apt_start, apt_end] =>
    match to_minutes apt_start, to_minutes apt_end, to_minutes target_start, to_minutes target_end with
    | some asm, some aem, some tsm, some tem => !(decide (aem ≤ tsm) || decide (asm ≥ tem))
    | _, _, _, _ => false
  | _ => false

/-- Availability rule stated by the specification (section 4.2), written
here only to compare the code against it: an appointment conflicts when it
overlaps the window under the half-open test; the slot is available exactly
when no overlapping appointment is `fixed`, and every overlapping
appointment is reported as a conflict. -/
def spec_is_available (appointments : List Appt) (window_start window_end : List Char) :
    Bool × List Appt :=
  let overlapping := appointments.filter (fun a => time_overlaps a.time window_start window_end)
  let fixed := overlapping.filter (fun a => decide (a.type = chars "fixed"))
  (fixed.isEmpty, overlapping)

example : to_minutes (chars "14:00") = some 840 := by decide
example : time_overlaps (chars "13:00-14:00") (chars "14:00") (chars "16:00") = false := by decide
example : time_overlaps (chars "13:00-15:00") (chars "14:00") (chars "16:00") = true := by decide

/-!
Availability checking in `bean_agent.py` (and, with the same structure, in
`joy_agent.py`): the schedule is embedded into a prompt, a hosted language
model is invoked, and the response fields are read back with
`result.get(..., default)`.  The model's parsed response is passed in as an
explicit argument; an `Except.error` value stands for any exception raised
during the model call or during JSON extraction.
-/

structure LLMVerdict where
  available : Option Bool
  reason : Option (List Char)
  conflicts : Option (List (List Char))
  suggestion : Option (List Char)
deriving DecidableEq, Inhabited

/-- Response body assembled by the `/check_availability` endpoint;
`current_schedule` is echoed only on the success path (the error branch
of `bean_agent.py` omits the key). -/
structure AvailabilityResponse where
  available : Bool
  reason : List Char
  conflicts : List (List Char)
  suggestion : List Char
  current_schedule : Option DaySchedule
deriving DecidableEq, Inhabited

/-- Translation of `check_availability` from `bean_agent.py`: 404 when the
date is outside the diary; otherwise the verdict is whatever the model
answered — `result.get("available", False)` and friends — and any error in
the model call yields an available-false body. -/
def check_availability (diary : Diary) (query : TimeSlotQuery)
    (model_response : Except (List Char) LLMVerdict) : Except Nat AvailabilityResponse :=
  match lookupD diary query.date with
  | none => .error 404
  | some day_schedule =>
    match model_response with
    | .error e =>
      .ok { available := false, reason := chars "AI Error: " ++ e,
            conflicts := [], suggestion := [], current_schedule := none }
    | .ok result =>
      .ok { available := result.available.getD false,
            reason := result.reason.getD [],
            conflicts := result.conflicts.getD [],
            suggestion := result.suggestion.getD [],
            current_schedule := some day_schedule }

/-!
Organizer data model (`organizer_agent.py`): the LangGraph state dict, the
slot dicts appended by the availability nodes (which carry a `reason` key),
and the bare `(date, start, end)` dicts rebuilt by `find_common_slots`.
Progress messages are f-strings; we embed each message as a constructor
carrying the dynamic data that was formatted into it.
-/

structure AvailEntry where
  date : List Char
  start_time : List Char
  end_time : List Char
  reason : List Char
deriving DecidableEq, Inhabited

structure CommonSlot where
  date : List Char
  start_time : List Char
  end_time : List Char
deriving DecidableEq, Inhabited

structure AvailResp where
  available : Bool
  reason : List Char
deriving DecidableEq, Inhabited

structure BookResp where
  status : List Char
deriving DecidableEq, Inhabited

inductive Msg where
  | fetchedDiaries (n : Nat)
  | foundPotential (n : Nat)
  | beanAvailable (n : Nat)
  | joyAvailable (n : Nat)
  | foundCommon (n : Nat)
  | noCommonSlots
  | selectedSlot (s : CommonSlot)
  | selectedFirst
  | cannotBook
  | bookedBean (s : List Char)
  | bookedJoy (s : List Char)
deriving DecidableEq

structure OrgState where
  bean_diary : Diary
  joy_diary : Diary
  bean_availability : List AvailEntry
  joy_availability : List AvailEntry
  common_slots : List CommonSlot
  selected_slot : Option CommonSlot
  messages : List Msg
  status : List Char
deriving DecidableEq, Inhabited

/-- One HTTP exchange as the organizer observes it: an exception (timeout,
connection refused, ...) or a status code with a parsed JSON body. -/
abbrev HttpResult (α : Type) : Type := Except (List Char) (Nat × α)

/-- Timeout passed to `requests.get(f"http://localhost:{port}/diary", ...)`. -/
def get_diary_timeout : Nat := 10

/-- Timeout passed to `requests.post(f"...{port}/check_availability", ...)`. -/
def check_availability_timeout : Nat := 30

/-- Timeout passed to `requests.post(f"...{port}/book_appointment", ...)`. -/
def book_timeout : Nat := 10

/-- Translation of `get_agent_diary`: non-200 responses and exceptions both
collapse to the empty dict. -/
def get_agent_diary (outcome : HttpResult Diary) : Diary :=
  match outcome with
  | .ok (code, d) => if code = 200 then d else []
  | .error _ => []

/-- Translation of `check_agent_availability`: a 200 response is passed
through; a non-200 response or an exception (timeout, connection error)
becomes an available-false result. -/
def check_agent_availability (outcome : HttpResult AvailResp) : AvailResp :=
  match outcome with
  | .ok (code, body) => if code = 200 then body else ⟨false, chars "Error checking availability"⟩
  | .error e => ⟨false, chars "Connection error: " ++ e⟩

/-- Translation of `book_agent_appointment`: `response.json()` on 200,
otherwise the empty dict (`none`); exceptions also yield the empty dict. -/
def book_agent_appointment (outcome : HttpResult BookResp) : Option BookResp :=
  match outcome with
  | .ok (code, body) => if code = 200 then some body else none
  | .error _ => none

/-- The ten 2-hour candidate windows enumerated by `find_potential_slots`. -/
def time_windows : List (List Char × List Char) :=
  [(chars "08:00", chars "10:00"), (chars "09:00", chars "11:00"),
   (chars "10:00", chars "12:00"), (chars "11:00", chars "13:00"),
   (chars "12:00", chars "14:00"), (chars "13:00", chars "15:00"),
   (chars "14:00", chars "16:00"), (chars "15:00", chars "17:00"),
   (chars "16:00", chars "18:00"), (chars "17:00", chars "19:00")]

/-- The local `potential_slots` list of `find_potential_slots`: the full
product of the diary's dates with the ten-window catalog. -/
def potential_slots (bean_diary : Diary) : List CommonSlot :=
  bean_diary.flatMap (fun p =>
    time_windows.map (fun w => { date := p.1, start_time := w.1, end_time := w.2 }))

/-- Translation of the `find_potential_slots` node: the product list is
computed, its length is reported in a message, and the list itself is then
dropped on the floor — it is never stored in the state (and the node is not
even wired into the workflow graph). -/
def find_potential_slots (st : OrgState) : OrgState :=
  let ps := potential_slots st.bean_diary
  { st with messages := st.messages ++ [.foundPotential ps.length] }

/-- Python 3 semantics of `dict.keys()[:5]`: `dict_keys` is a view object
without subscripting, so the expression raises `TypeError` regardless of
the dict's contents. -/
def dict_keys_slice (_keys : List (List Char)) (_n : Nat) :
    Except (List Char) (List (List Char)) :=
  .error (chars "TypeError: dict_keys object is not subscriptable")

/-- The reduced three-window catalog hard-coded inside `check_bean_availability`. -/
def bean_check_windows : List (List Char × List Char) :=
  [(chars "09:00", chars "11:00"), (chars "13:00", chars "15:00"),
   (chars "16:00", chars "18:00")]

/-- Translation of the `check_bean_availability` node: the iteration is
driven by `state["bean_diary"].keys()[:5]`, which raises `TypeError`; the
loop body that would run over the sliced dates is translated after the
bind.  `respond` is Mr. Bean's HTTP reply per queried slot. -/
def check_bean_availability (st : OrgState)
    (respond : CommonSlot → HttpResult AvailResp) : Except (List Char) OrgState :=
  match dict_keys_slice (st.bean_diary.map Prod.fst) 5 with
  | .error e => .error e
  | .ok dates =>
    let bean_available := dates.flatMap (fun d =>
      bean_check_windows.filterMap (fun w =>
        let r := check_agent_availability (respond { date := d, start_time := w.1, end_time := w.2 })
        if r.available then
          some ({ date := d, start_time := w.1, end_time := w.2, reason := r.reason } : AvailEntry)
        else none))
    .ok { st with bean_availability := bean_available,
                  messages := st.messages ++ [.beanAvailable bean_available.length] }

/-- Translation of the `check_joy_availability` node: Mr. Joy is queried
only for the slots Mr. Bean was available for. -/
def check_joy_availability (st : OrgState)
    (respond : CommonSlot → HttpResult AvailResp) : OrgState :=
  let joy_available := st.bean_availability.filterMap (fun b =>
    let r := check_agent_availability
      (respond { date := b.date, start_time := b.start_time, end_time := b.end_time })
    if r.available then
      some ({ date := b.date, start_time := b.start_time, end_time := b.end_time,
              reason := r.reason } : AvailEntry)
    else none)
  { st with joy_availability := joy_available,
            messages := st.messages ++ [.joyAvailable joy_available.length] }

/-- The bare window carried by an availability entry (its `date`,
`start_time`, `end_time` keys). -/
def entry_win (a : AvailEntry) : CommonSlot := ⟨a.date, a.start_time, a.end_time⟩

/-- Key string `f"{date}_{start}_{end}"` used by `find_common_slots`. -/
def win_key (w : CommonSlot) : List Char :=
  w.date ++ '_' :: (w.start_time ++ '_' :: w.end_time)

def entry_key (a : AvailEntry) : List Char := win_key (entry_win a)

/-- Rebuilding of a slot dict from a key via `slot_key.split("_")` and
`parts[0] / parts[1] / parts[2]`. -/
def key_to_slot (k : List Char) : CommonSlot :=
  let parts := splitOnChar '_' k
  { date := parts.getD 0 [], start_time := parts.getD 1 [], end_time := parts.getD 2 [] }

def slot_date_le (x y : CommonSlot) : Bool := lexLe x.date y.date

/-- Core of the `find_common_slots` node: both availability lists are
keyed (a Python set, embedded as a deduplicated list), intersected, and the
common keys are split back into slot dicts. -/
def common_slot_list (bean joy : List AvailEntry) : List CommonSlot :=
  let bean_slots := (bean.map entry_key).dedup
  let joy_slots := (joy.map entry_key).dedup
  let common := bean_slots.filter (fun k => decide (k ∈ joy_slots))
  common.map key_to_slot

/-- Translation of the `find_common_slots` node: the rebuilt common slots
are stored sorted by date, and the status becomes `slots_found` or
`no_slots` according to the emptiness of the intersection. -/
def find_common_slots (st : OrgState) : OrgState :=
  let common_slots := common_slot_list st.bean_availability st.joy_availability
  { st with common_slots := sort_le slot_date_le common_slots,
            messages := st.messages ++ [.foundCommon common_slots.length],
            status := if common_slots.isEmpty then chars "no_slots" else chars "slots_found" }

/-- Translation of the `select_best_slot` node: with no common slots the
model is never invoked and nothing is selected; otherwise the model is
asked for an index, an in-range answer selects that slot, and anything
else (out-of-range index, unparsable reply, exception) falls back to the
first element of the date-sorted list. -/
def select_best_slot (st : OrgState) (model_response : Except (List Char) Int) : OrgState :=
  if st.common_slots.isEmpty then
    { st with selected_slot := none, messages := st.messages ++ [.noCommonSlots] }
  else
    let cs := st.common_slots
    match model_response with
    | .ok selection =>
      if 0 ≤ selection ∧ selection < (cs.length : Int) then
        let s := cs.getD selection.toNat default
        { st with selected_slot := some s, messages := st.messages ++ [.selectedSlot s] }
      else
        { st with selected_slot := some cs.headI, messages := st.messages ++ [.selectedFirst] }
    | .error _ =>
      { st with selected_slot := some cs.headI, messages := st.messages ++ [.selectedFirst] }

/-- `booking.get("status", "unknown")` as recorded in the progress log. -/
def book_status (o : Option BookResp) : List Char :=
  match o with
  | some r => r.status
  | none => chars "unknown"

/-- Translation of the `book_appointments` node: with no selected slot the
node only logs; otherwise both bookings are attempted unconditionally and
independently, their statuses are logged, and the state status is set to
`booked` without inspecting either outcome. -/
def book_appointments (st : OrgState) (bean_outcome joy_outcome : HttpResult BookResp) : OrgState :=
  match st.selected_slot with
  | none => { st with messages := st.messages ++ [.cannotBook] }
  | some _slot =>
    let bean_booking := book_agent_appointment bean_outcome
    let joy_booking := book_agent_appointment joy_outcome
    { st with
        messages := st.messages ++
          [.bookedBean (book_status bean_booking), .bookedJoy (book_status joy_booking)],
        status := chars "booked" }

/-- Minutes value of a `HH:MM` string, with the same parser as the
deterministic overlap test. -/
def minutes_of (t : List Char) : Nat := (to_minutes t).getD 0

/-- Distance of a window's midpoint from 15:00, in minutes. -/
def mid_dist (w : CommonSlot) : Nat :=
  Int.natAbs ((((minutes_of w.start_time + minutes_of w.end_time) / 2 : Nat) : Int) - 900)

/-- Strict scoring order of the specification's selector (section 4.5):
date ascending, then midpoint distance from 15:00, then start ascending. -/
def spec_lt (a b : CommonSlot) : Bool :=
  if a.date = b.date then
    if mid_dist a = mid_dist b then
      lexLe a.start_time b.start_time && decide (a.start_time ≠ b.start_time)
    else decide (mid_dist a < mid_dist b)
  else lexLe a.date b.date

/-- Selector stated by the specification, written here only to compare the
code against it: the first candidate minimal under `spec_lt`. -/
def spec_select_best : List CommonSlot → Option CommonSlot
  | [] => none
  | c :: cs => some (cs.foldl (fun best x => if spec_lt x best then x else best) c)

/-!
Well-formedness predicates used as hypotheses: the wire format of the
repository uses `YYYY-MM-DD` dates and zero-padded `HH:MM` times, so key
fields never contain an underscore and time strings start with a valid
five-character clock.
-/

/-- Availability-entry fields free of the underscore used as key separator. -/
def entry_wf (a : AvailEntry) : Prop :=
  '_' ∉ a.date ∧ '_' ∉ a.start_time ∧ '_' ∉ a.end_time

instance (a : AvailEntry) : Decidable (entry_wf a) := by unfold entry_wf; infer_instance

/-- First five characters are a zero-padded clock `HH:MM` with a valid
minute-tens digit. -/
def wf_time5 (t : List Char) : Bool :=
  match t with
  | a :: b :: c :: d :: e :: _ =>
      is_digit_ch a && is_digit_ch b && decide (c = ':') &&
        is_digit_ch d && is_digit_ch e && decide (dv d ≤ 5)
  | _ => false

/-- Start time of a `HH:MM-HH:MM` string, in minutes, reading the first
five characters. -/
def start_minutes (t : List Char) : Nat :=
  match t with
  | a :: b :: _ :: d :: e :: _ => (10 * dv a + dv b) * 60 + (10 * dv d + dv e)
  | _ => 0

theorem key_to_slot_win_key (w : CommonSlot)
    (hd : '_' ∉ w.date) (hs : '_' ∉ w.start_time) (he : '_' ∉ w.end_time) :
    key_to_slot (win_key w) = w := by
  unfold key_to_slot win_key
  rw [splitOnChar_append '_' w.date _ hd, splitOnChar_append '_' w.start_time _ hs,
    splitOnChar_no_sep '_' w.end_time he]
  rfl

theorem key_to_slot_entry_key (a : AvailEntry) (h : entry_wf a) :
    key_to_slot (entry_key a) = entry_win a :=
  key_to_slot_win_key (entry_win a) h.1 h.2.1 h.2.2

theorem win_key_entry (a : AvailEntry) : entry_key a = win_key (entry_win a) := rfl

theorem common_slot_list_mem (bean joy : List AvailEntry)
    (hb : ∀ a ∈ bean, entry_wf a) (hj : ∀ a ∈ joy, entry_wf a) (x : CommonSlot) :
    x ∈ common_slot_list bean joy ↔
      (x ∈ bean.map entry_win ∧ x ∈ joy.map entry_win) := by
  unfold common_slot_list
  simp only [List.mem_map, List.mem_filter, List.mem_dedup, decide_eq_true_eq]
  constructor
  · rintro ⟨k, ⟨⟨a, ha, hka⟩, b, hbj, hkb⟩, hx⟩
    have hx1 : x = entry_win a := by
      rw [← hx, ← hka, key_to_slot_entry_key a (hb a ha)]
    have hx2 : x = entry_win b := by
      rw [← hx, ← hkb, key_to_slot_entry_key b (hj b hbj)]
    exact ⟨⟨a, ha, hx1.symm⟩, ⟨b, hbj, hx2.symm⟩⟩
  · rintro ⟨⟨a, ha, rfl⟩, b, hbj, hwb⟩
    refine ⟨entry_key a, ⟨⟨a, ha, rfl⟩, b, hbj, ?_⟩, key_to_slot_entry_key a (hb a ha)⟩
    rw [win_key_entry, win_key_entry, hwb]

/-- C5: for well-formed inputs (no underscore in the key fields, which
holds of every `YYYY-MM-DD` date and `HH:MM` time), `find_common_slots`
stores exactly the set intersection of the two parties' free windows keyed
by `(date, start, end)`; swapping the two input sets yields the same set;
and every stored window belongs to both input sets. -/
theorem find_common_slots_exact_intersection (st st2 : OrgState)
    (hb : ∀ a ∈ st.bean_availability, entry_wf a)
    (hj : ∀ a ∈ st.joy_availability, entry_wf a)
    (hswap1 : st2.bean_availability = st.joy_availability)
    (hswap2 : st2.joy_availability = st.bean_availability) :
    ((find_common_slots st).common_slots).toFinset =
        (st.bean_availability.map entry_win).toFinset ∩
          (st.joy_availability.map entry_win).toFinset ∧
    ((find_common_slots st2).common_slots).toFinset =
        ((find_common_slots st).common_slots).toFinset ∧
    ∀ x ∈ (find_common_slots st).common_slots,
      x ∈ st.bean_availability.map entry_win ∧ x ∈ st.joy_availability.map entry_win := by
  have hmem : ∀ x : CommonSlot, x ∈ (find_common_slots st).common_slots ↔
      (x ∈ st.bean_availability.map entry_win ∧ x ∈ st.joy_availability.map entry_win) := by
    intro x
    unfold find_common_slots
    simpa [sort_le_mem] using common_slot_list_mem _ _ hb hj x
  have hmem2 : ∀ x : CommonSlot, x ∈ (find_common_slots st2).common_slots ↔
      (x ∈ st.joy_availability.map entry_win ∧ x ∈ st.bean_availability.map entry_win) := by
    intro x
    unfold find_common_slots
    rw [hswap1, hswap2]
    simpa [sort_le_mem] using common_slot_list_mem _ _ hj hb x
  refine ⟨?_, ?_, fun x hx => (hmem x).mp hx⟩
  · ext x
    simp [List.mem_toFinset, hmem x]
  · ext x
    simp [List.mem_toFinset, hmem x, hmem2 x]
    tauto

def c5_entry_a : AvailEntry :=
  ⟨chars "2025-01-01", chars "14:00", chars "16:00", chars "Free slot"⟩

def c5_entry_b : AvailEntry :=
  ⟨chars "2025-01-02", chars "09:00", chars "11:00", chars "Free slot"⟩

def c5_state : OrgState :=
  { bean_diary := [], joy_diary := [],
    bean_availability := [c5_entry_a],
    joy_availability := [c5_entry_a, c5_entry_b],
    common_slots := [], selected_slot := none, messages := [],
    status := chars "in_progress" }

def c5_state_swapped : OrgState :=
  { c5_state with bean_availability := [c5_entry_a, c5_entry_b],
                  joy_availability := [c5_entry_a] }

theorem find_common_slots_exact_intersection_inst :
    ((find_common_slots c5_state).common_slots).toFinset =
        (c5_state.bean_availability.map entry_win).toFinset ∩
          (c5_state.joy_availability.map entry_win).toFinset ∧
    ((find_common_slots c5_state_swapped).common_slots).toFinset =
        ((find_common_slots c5_state).common_slots).toFinset ∧
    ∀ x ∈ (find_common_slots c5_state).common_slots,
      x ∈ c5_state.bean_availability.map entry_win ∧
        x ∈ c5_state.joy_availability.map entry_win :=
  find_common_slots_exact_intersection c5_state c5_state_swapped
    (by decide) (by decide) (by decide) (by decide)

/-- C7: `reset_diary` regenerates the default horizon from scratch: its
result does not depend on the previous calendar at all (in particular a
booked appointment is discarded), and resetting twice on the same day
yields the same calendar as resetting once. -/
theorem reset_diary_idempotent_discards (s1 s2 s : Diary) (q : TimeSlotQuery) (today : Nat) :
    reset_diary s1 today = reset_diary s2 today ∧
    reset_diary (reset_diary s today) today = reset_diary s today ∧
    reset_diary (book_apply s q) today = reset_diary s today :=
  ⟨rfl, rfl, rfl⟩

/-- C4: the `check_bean_availability` node never produces a free-window
set: `state["bean_diary"].keys()[:5]` raises `TypeError` in Python 3 for
every state, so the node aborts before the claimed date-times-catalog
enumeration (which, as written below the bind, would in any case cover
only three windows over the sliced dates instead of the ten-window
catalog computed and discarded by `find_potential_slots`). -/
theorem check_bean_availability_raises_type_error (st : OrgState)
    (respond : CommonSlot → HttpResult AvailResp) :
    check_bean_availability st respond =
      .error (chars "TypeError: dict_keys object is not subscriptable") := rfl

/-!
Claim C1: availability checking.  The specification states the
deterministic fixed-conflict rule; the endpoint instead returns whatever
the hosted model answered.  The counterexample exhibits a schedule with a
fixed appointment covering the queried window for which the endpoint
reports available (because the model said so), while the specification
rule reports unavailable.
-/

def c1_day : DaySchedule :=
  { date := chars "2025-01-01", day := chars "Wednesday",
    appointments := [⟨chars "10:00-12:00", chars "Work at office", chars "fixed"⟩] }

def c1_diary : Diary := [(chars "2025-01-01", c1_day)]

def c1_diary_free : Diary :=
  [(chars "2025-01-01",
    { date := chars "2025-01-01", day := chars "Wednesday", appointments := [] })]

def c1_query : TimeSlotQuery :=
  ⟨chars "2025-01-01", chars "10:00", chars "12:00", chars "Badminton match"⟩

def c1_verdict : LLMVerdict :=
  ⟨some true, some (chars "The slot looks free"), some [], some []⟩

theorem check_availability_ignores_fixed_conflict :
    ((check_availability c1_diary c1_query (.ok c1_verdict)).toOption.map
        AvailabilityResponse.available) = some true ∧
    (spec_is_available c1_day.appointments c1_query.start_time c1_query.end_time).1 = false ∧
    time_overlaps (chars "10:00-12:00") c1_query.start_time c1_query.end_time = true := by
  decide

/-- C1 (amended): `check_availability` answers 404 exactly when the date is
outside the diary (a present date always yields a normal response, an
absent date always yields 404 whatever the model would have answered);
for a present date its availability verdict is exactly the model's parsed
answer (`available` defaulting to false when the field is missing or the
model call fails) and does not depend on the appointments of the schedule
at all — the fixed-overlap rule lives only in the prompt text and is not
enforced. -/
theorem check_availability_verdict_from_model
    (d1 d2 d3 : Diary) (q q3 : TimeSlotQuery)
    (o o3 : Except (List Char) LLMVerdict) (s1 s2 : DaySchedule)
    (h1 : lookupD d1 q.date = some s1) (h2 : lookupD d2 q.date = some s2)
    (h3 : lookupD d3 q3.date = none) :
    ((check_availability d1 q o).toOption.map AvailabilityResponse.available) =
      ((check_availability d2 q o).toOption.map AvailabilityResponse.available) ∧
    (∀ e, o = .error e →
      ((check_availability d1 q o).toOption.map AvailabilityResponse.available) = some false) ∧
    (∀ v, o = .ok v →
      ((check_availability d1 q o).toOption.map AvailabilityResponse.available) =
        some (v.available.getD false)) ∧
    (∃ r, check_availability d1 q o = .ok r) ∧
    check_availability d3 q3 o3 = .error 404 := by
  have h404 : check_availability d3 q3 o3 = .error 404 := by
    unfold check_availability
    rw [h3]
  unfold check_availability
  rw [h1, h2]
  cases o with
  | error e =>
    refine ⟨rfl, fun _ _ => rfl, fun v hv => ?_, ⟨_, rfl⟩, h404⟩
    simp at hv
  | ok v =>
    refine ⟨rfl, fun e he => ?_, fun v2 hv => ?_, ⟨_, rfl⟩, h404⟩
    · simp at he
    · have hv2 : v2 = v := by
        have := hv
        injection this with h3b
        exact h3b.symm
      subst hv2
      rfl

def c1_query_missing : TimeSlotQuery :=
  ⟨chars "2030-12-31", chars "10:00", chars "12:00", chars "Badminton match"⟩

theorem check_availability_verdict_from_model_inst :
    ((check_availability c1_diary c1_query (.ok c1_verdict)).toOption.map
        AvailabilityResponse.available) =
      ((check_availability c1_diary_free c1_query (.ok c1_verdict)).toOption.map
        AvailabilityResponse.available) ∧
    check_availability c1_diary c1_query_missing (.ok c1_verdict) = .error 404 :=
  have h := check_availability_verdict_from_model c1_diary c1_diary_free c1_diary
    c1_query c1_query_missing (.ok c1_verdict) (.ok c1_verdict)
    c1_day { date := chars "2025-01-01", day := chars "Wednesday", appointments := [] }
    (by decide) (by decide) (by decide)
  ⟨h.1, h.2.2.2.2⟩

/-!
Claim C2: slot selection.  The specification's selector is the
lexicographic minimum under (date, midpoint distance from 15:00, start);
the node instead returns the model-chosen index, falling back to the first
element of the date-sorted list.
-/

def c2_state : OrgState :=
  { bean_diary := [], joy_diary := [], bean_availability := [], joy_availability := [],
    common_slots := [⟨chars "2025-01-01", chars "08:00", chars "10:00"⟩,
                     ⟨chars "2025-01-01", chars "14:00", chars "16:00"⟩],
    selected_slot := none, messages := [], status := chars "slots_found" }

theorem select_best_slot_not_lex_minimal :
    (select_best_slot c2_state (.error (chars "invalid literal for int"))).selected_slot =
        some ⟨chars "2025-01-01", chars "08:00", chars "10:00"⟩ ∧
    spec_select_best c2_state.common_slots =
        some ⟨chars "2025-01-01", chars "14:00", chars "16:00"⟩ ∧
    (⟨chars "2025-01-01", chars "08:00", chars "10:00"⟩ : CommonSlot) ≠
        ⟨chars "2025-01-01", chars "14:00", chars "16:00"⟩ := by
  decide

/-- C2 (amended): for a non-empty candidate list the node always selects
some candidate from the list: the model-chosen one when the reply parses
to an in-range index, and the first element of the date-sorted list on any
other reply or on an exception.  For a fixed model reply the selection is
a deterministic function of the candidate list. -/
theorem select_best_slot_choice_in_candidates (st : OrgState)
    (o : Except (List Char) Int) (h : st.common_slots ≠ []) :
    ∃ s, (select_best_slot st o).selected_slot = some s ∧ s ∈ st.common_slots ∧
      (∀ e, o = .error e → s = st.common_slots.headI) ∧
      (∀ i, o = .ok i → ¬ (0 ≤ i ∧ i < (st.common_slots.length : Int)) →
        s = st.common_slots.headI) ∧
      (∀ i, o = .ok i → (0 ≤ i ∧ i < (st.common_slots.length : Int)) →
        s = st.common_slots.getD i.toNat default) := by
  have hne : st.common_slots.isEmpty = false := by
    cases hcs : st.common_slots with
    | nil => exact absurd hcs h
    | cons c cs => rfl
  have hhead : st.common_slots.headI ∈ st.common_slots := by
    cases hcs : st.common_slots with
    | nil => exact absurd hcs h
    | cons c cs => simp [List.headI]
  unfold select_best_slot
  rw [hne]
  simp only [Bool.false_eq_true, if_false]
  cases o with
  | error e =>
    refine ⟨st.common_slots.headI, rfl, hhead, fun _ _ => rfl, fun i hi => ?_, fun i hi => ?_⟩
      <;> simp at hi
  | ok i =>
    dsimp only
    by_cases hrange : 0 ≤ i ∧ i < (st.common_slots.length : Int)
    · rw [if_pos hrange]
      refine ⟨st.common_slots.getD i.toNat default, rfl, ?_, fun e he => ?_,
        fun j hj hc => ?_, fun j hj _ => ?_⟩
      · have hlt : i.toNat < st.common_slots.length := by omega
        rw [List.getD_eq_getElem?_getD, List.getElem?_eq_getElem hlt]
        exact List.getElem_mem _
      · simp at he
      · injection hj with hj2
        subst hj2
        exact absurd hrange hc
      · injection hj with hj2
        subst hj2
        rfl
    · rw [if_neg hrange]
      refine ⟨st.common_slots.headI, rfl, hhead, fun e he => ?_,
        fun j hj _ => ?_, fun j hj hc => ?_⟩
      · simp at he
      · rfl
      · injection hj with hj2
        subst hj2
        exact absurd hc hrange

theorem select_best_slot_choice_in_candidates_inst :
    ∃ s, (select_best_slot c2_state (.ok 1)).selected_slot = some s ∧
      s ∈ c2_state.common_slots ∧
      (∀ e, (.ok 1 : Except (List Char) Int) = .error e → s = c2_state.common_slots.headI) ∧
      (∀ i, (.ok 1 : Except (List Char) Int) = .ok i →
        ¬ (0 ≤ i ∧ i < (c2_state.common_slots.length : Int)) →
        s = c2_state.common_slots.headI) ∧
      (∀ i, (.ok 1 : Except (List Char) Int) = .ok i →
        (0 ≤ i ∧ i < (c2_state.common_slots.length : Int)) →
        s = c2_state.common_slots.getD i.toNat default) :=
  select_best_slot_choice_in_candidates c2_state (.ok 1) (by decide)

/-!
Claim C3: booking coordination.  Each party's booking is attempted
independently and failures never raise, but the node reports status
`booked` whenever a slot was selected, regardless of either outcome, so
fully-booked, partially-booked and failed runs are indistinguishable to
the caller.
-/

def c3_state : OrgState :=
  { bean_diary := [], joy_diary := [], bean_availability := [], joy_availability := [],
    common_slots := [⟨chars "2025-01-01", chars "14:00", chars "16:00"⟩],
    selected_slot := some ⟨chars "2025-01-01", chars "14:00", chars "16:00"⟩,
    messages := [], status := chars "slots_found" }

def c3_ok_booking : HttpResult BookResp := .ok (200, ⟨chars "booked"⟩)

def c3_fail_booking : HttpResult BookResp := .error (chars "Connection refused")

theorem book_appointments_status_indistinguishable :
    (book_appointments c3_state c3_fail_booking c3_ok_booking).status = chars "booked" ∧
    (book_appointments c3_state c3_ok_booking c3_ok_booking).status = chars "booked" ∧
    (book_appointments c3_state c3_fail_booking c3_fail_booking).status = chars "booked" ∧
    book_agent_appointment c3_fail_booking = none ∧
    book_agent_appointment c3_ok_booking = some ⟨chars "booked"⟩ := by
  decide

/-- C3 (amended): with a selected slot, both parties' bookings are
attempted unconditionally and independently — a failure at one party is
recorded as an `unknown` status in the log and neither prevents the other
party's attempt nor raises — but the reported status is always `booked`,
so the claimed fully/partially/failed distinction does not exist. -/
theorem book_appointments_independent_status_booked (st : OrgState) (s : CommonSlot)
    (bo jo : HttpResult BookResp) (h : st.selected_slot = some s) :
    (book_appointments st bo jo).status = chars "booked" ∧
    (book_appointments st bo jo).messages =
      st.messages ++ [.bookedBean (book_status (book_agent_appointment bo)),
                      .bookedJoy (book_status (book_agent_appointment jo))] ∧
    (∀ bo2 : HttpResult BookResp,
      (book_appointments st bo2 jo).messages.getLast? =
        some (.bookedJoy (book_status (book_agent_appointment jo)))) := by
  unfold book_appointments
  rw [h]
  refine ⟨rfl, rfl, fun bo2 => ?_⟩
  simp

theorem book_appointments_independent_status_booked_inst :
    (book_appointments c3_state c3_fail_booking c3_ok_booking).status = chars "booked" ∧
    (book_appointments c3_state c3_fail_booking c3_ok_booking).messages =
      c3_state.messages ++
        [.bookedBean (book_status (book_agent_appointment c3_fail_booking)),
         .bookedJoy (book_status (book_agent_appointment c3_ok_booking))] ∧
    (∀ bo2 : HttpResult BookResp,
      (book_appointments c3_state bo2 c3_ok_booking).messages.getLast? =
        some (.bookedJoy (book_status (book_agent_appointment c3_ok_booking)))) :=
  book_appointments_independent_status_booked c3_state
    ⟨chars "2025-01-01", chars "14:00", chars "16:00"⟩ c3_fail_booking c3_ok_booking rfl

/-!
Claim C8: the no-common-slot path.  The graph wires
`find_common -> select_slot -> book` unconditionally, but with an empty
intersection the selection node selects nothing without invoking the
model, and the booking node logs and returns without calling either
party's booking endpoint, so the run terminates with status `no_slots`.
-/

/-- C8: with an empty intersection the pipeline from `find_common_slots`
onwards ends in status `no_slots` with no slot selected, and the final
state is independent of the selection model's reply and of both parties'
booking endpoints — no selection and no booking operation takes place. -/
theorem empty_intersection_no_slots_no_booking (st : OrgState)
    (o : Except (List Char) Int) (bo jo : HttpResult BookResp)
    (h : (find_common_slots st).common_slots = []) :
    (book_appointments (select_best_slot (find_common_slots st) o) bo jo).status =
        chars "no_slots" ∧
    (book_appointments (select_best_slot (find_common_slots st) o) bo jo).selected_slot =
        none ∧
    ∀ (o2 : Except (List Char) Int) (bo2 jo2 : HttpResult BookResp),
      book_appointments (select_best_slot (find_common_slots st) o2) bo2 jo2 =
        book_appointments (select_best_slot (find_common_slots st) o) bo jo := by
  have hcl : common_slot_list st.bean_availability st.joy_availability = [] := by
    have h2 := h
    simp only [find_common_slots] at h2
    exact (sort_le_eq_nil_iff _ _).mp h2
  refine ⟨?_, ?_, fun o2 bo2 jo2 => ?_⟩ <;>
    simp [find_common_slots, select_best_slot, book_appointments, hcl, sort_le]

def c8_state : OrgState :=
  { bean_diary := [], joy_diary := [],
    bean_availability := [⟨chars "2025-01-01", chars "09:00", chars "11:00", chars "Free"⟩],
    joy_availability := [],
    common_slots := [], selected_slot := none, messages := [],
    status := chars "in_progress" }

theorem empty_intersection_no_slots_no_booking_inst :
    (book_appointments (select_best_slot (find_common_slots c8_state)
        (.error (chars "model down"))) c3_ok_booking c3_ok_booking).status =
      chars "no_slots" ∧
    (book_appointments (select_best_slot (find_common_slots c8_state)
        (.error (chars "model down"))) c3_ok_booking c3_ok_booking).selected_slot = none ∧
    ∀ (o2 : Except (List Char) Int) (bo2 jo2 : HttpResult BookResp),
      book_appointments (select_best_slot (find_common_slots c8_state) o2) bo2 jo2 =
        book_appointments (select_best_slot (find_common_slots c8_state)
          (.error (chars "model down"))) c3_ok_booking c3_ok_booking :=
  empty_intersection_no_slots_no_booking c8_state (.error (chars "model down"))
    c3_ok_booking c3_ok_booking (by decide)

/-!
Claim C9: availability queries against the collaborator stores use a
bounded timeout and fail closed: a timeout, connection error or non-200
response is converted into an available-false result instead of an
exception, and a party whose endpoint keeps failing contributes no free
windows at all.
-/

/-- A failed HTTP exchange: an exception (timeout or connection error) or
a non-200 status code. -/
def http_failed (o : HttpResult AvailResp) : Bool :=
  match o with
  | .error _ => true
  | .ok (code, _) => decide (code ≠ 200)

/-- C9: availability queries carry a bounded (positive, finite) timeout;
an exception or a non-200 reply yields an available-false result rather
than raising or defaulting to free; and a party whose endpoint fails for
every query ends up with an empty free-window set (fails closed). -/
theorem availability_query_fails_closed
    (e : List Char) (code : Nat) (body : AvailResp) (st : OrgState)
    (respond : CommonSlot → HttpResult AvailResp)
    (hcode : code ≠ 200)
    (hfail : ∀ s, http_failed (respond s) = true) :
    (check_agent_availability (.error e)).available = false ∧
    (check_agent_availability (.ok (code, body))).available = false ∧
    0 < check_availability_timeout ∧ 0 < get_diary_timeout ∧
    get_agent_diary (.error e) = [] ∧
    (check_joy_availability st respond).joy_availability = [] := by
  have havail : ∀ s, (check_agent_availability (respond s)).available = false := by
    intro s
    have hs := hfail s
    cases hr : respond s with
    | error e2 => rfl
    | ok p =>
      obtain ⟨c, b⟩ := p
      rw [hr] at hs
      simp only [http_failed, decide_eq_true_eq] at hs
      simp [check_agent_availability, hs]
  refine ⟨rfl, ?_, by decide, by decide, rfl, ?_⟩
  · simp [check_agent_availability, hcode]
  · unfold check_joy_availability
    simp only
    rw [List.filterMap_eq_nil_iff]
    intro b _
    simp only [havail]
    rfl

theorem availability_query_fails_closed_inst :
    (check_agent_availability (.error (chars "timed out"))).available = false ∧
    (check_agent_availability (.ok (500, ⟨true, chars "oops"⟩))).available = false ∧
    0 < check_availability_timeout ∧ 0 < get_diary_timeout ∧
    get_agent_diary (.error (chars "timed out")) = [] ∧
    (check_joy_availability c8_state
        (fun _ => .error (chars "timed out"))).joy_availability = [] :=
  availability_query_fails_closed (chars "timed out") 500 ⟨true, chars "oops"⟩ c8_state
    (fun _ => .error (chars "timed out")) (by decide) (fun _ => rfl)

/-!
Claim C10: in Mr. Bean's freshly generated diary no appointment — base
template or the day-offset variations — overlaps 14:00-16:00 under the
half-open test, so the deterministic availability rule reports the window
available with no conflicts on every day of the horizon.
-/

theorem bean_day_no_overlap (off : Nat) : ∀ a ∈ bean_day_appointments off,
    time_overlaps a.time (chars "14:00") (chars "16:00") = false := by
  unfold bean_day_appointments
  by_cases h3 : off % 3 = 0 <;> by_cases h5 : off % 5 = 0 <;>
    simp only [h3, h5, if_true, if_false, reduceIte] <;> decide

/-- C10: every appointment of every day of Mr. Bean's freshly generated
ten-day diary leaves the 14:00-16:00 window untouched under the half-open
overlap test, so the deterministic availability rule reports that window
available with an empty conflict list on every day. -/
theorem bean_diary_fourteen_sixteen_free (start_date : Nat)
    (entry : List Char × DaySchedule) (hentry : entry ∈ generate_bean_diary start_date)
    (a : Appt) (ha : a ∈ entry.2.appointments) :
    time_overlaps a.time (chars "14:00") (chars "16:00") = false ∧
    spec_is_available entry.2.appointments (chars "14:00") (chars "16:00") = (true, []) := by
  simp only [generate_bean_diary, List.mem_map, List.mem_range] at hentry
  obtain ⟨off, hoff, rfl⟩ := hentry
  simp only at ha
  constructor
  · exact bean_day_no_overlap off a ha
  · unfold spec_is_available
    have hnil : (bean_day_appointments off).filter
        (fun x => time_overlaps x.time (chars "14:00") (chars "16:00")) = [] := by
      rw [List.filter_eq_nil_iff]
      intro x hx
      simp [bean_day_no_overlap off x hx]
    simp only at hnil ⊢
    rw [hnil]
    rfl

theorem bean_diary_fourteen_sixteen_free_inst :
    time_overlaps (⟨chars "08:00-09:00", chars "Breakfast with Teddy", chars "flexible"⟩ : Appt).time
        (chars "14:00") (chars "16:00") = false ∧
    spec_is_available
        ((date_chars 0,
          ({ date := date_chars 0, day := weekday_name 0,
             appointments := bean_day_appointments 0 } : DaySchedule)) :
            List Char × DaySchedule).2.appointments
        (chars "14:00") (chars "16:00") = (true, []) :=
  bean_diary_fourteen_sixteen_free 0
    (date_chars 0,
      { date := date_chars 0, day := weekday_name 0, appointments := bean_day_appointments 0 })
    (by decide)
    ⟨chars "08:00-09:00", chars "Breakfast with Teddy", chars "flexible"⟩ (by decide)

/-!
Claim C6: booking in a party's calendar store.  The day's appointments are
re-sorted by the full `HH:MM-HH:MM` string; on zero-padded clock strings
that string order agrees with start-time order, which the next lemmas
establish.
-/

theorem is_digit_ch_bounds (c : Char) (h : is_digit_ch c = true) :
    48 ≤ c.toNat ∧ c.toNat ≤ 57 := by
  simpa [is_digit_ch] using h

theorem wf_time5_shape (t : List Char) (h : wf_time5 t = true) :
    ∃ a b d e rest, t = a :: b :: ':' :: d :: e :: rest ∧
      is_digit_ch a = true ∧ is_digit_ch b = true ∧ is_digit_ch d = true ∧
      is_digit_ch e = true ∧ dv d ≤ 5 := by
  cases t with
  | nil => simp [wf_time5] at h
  | cons a t1 =>
    cases t1 with
    | nil => simp [wf_time5] at h
    | cons b t2 =>
      cases t2 with
      | nil => simp [wf_time5] at h
      | cons c t3 =>
        cases t3 with
        | nil => simp [wf_time5] at h
        | cons d t4 =>
          cases t4 with
          | nil => simp [wf_time5] at h
          | cons e rest =>
            simp only [wf_time5, Bool.and_eq_true, decide_eq_true_eq] at h
            obtain ⟨⟨⟨⟨⟨hA, hB⟩, hc⟩, hD⟩, hE⟩, hdv⟩ := h
            subst hc
            exact ⟨a, b, d, e, rest, rfl, hA, hB, hD, hE, hdv⟩

theorem lexLe_start_minutes (s t : List Char) (hs : wf_time5 s = true)
    (ht : wf_time5 t = true) (h : lexLe s t = true) :
    start_minutes s ≤ start_minutes t := by
  obtain ⟨a, b, d, e, rest, rfl, hA, hB, hD, hE, hdv⟩ := wf_time5_shape s hs
  obtain ⟨a2, b2, d2, e2, rest2, rfl, hA2, hB2, hD2, hE2, hdv2⟩ := wf_time5_shape t ht
  obtain ⟨hAl, hAu⟩ := is_digit_ch_bounds a hA
  obtain ⟨hBl, hBu⟩ := is_digit_ch_bounds b hB
  obtain ⟨hDl, hDu⟩ := is_digit_ch_bounds d hD
  obtain ⟨hEl, hEu⟩ := is_digit_ch_bounds e hE
  obtain ⟨hA2l, hA2u⟩ := is_digit_ch_bounds a2 hA2
  obtain ⟨hB2l, hB2u⟩ := is_digit_ch_bounds b2 hB2
  obtain ⟨hD2l, hD2u⟩ := is_digit_ch_bounds d2 hD2
  obtain ⟨hE2l, hE2u⟩ := is_digit_ch_bounds e2 hE2
  simp only [dv] at hdv hdv2
  simp only [lexLe_cons_cons] at h
  simp only [start_minutes, dv]
  by_cases h1 : a.toNat = a2.toNat
  · rw [if_pos h1] at h
    by_cases h2 : b.toNat = b2.toNat
    · rw [if_pos h2] at h
      simp only [if_pos rfl, if_true] at h
      by_cases h3 : d.toNat = d2.toNat
      · rw [if_pos h3] at h
        by_cases h4 : e.toNat = e2.toNat
        · omega
        · rw [if_neg h4] at h
          have h4' : e.toNat < e2.toNat := of_decide_eq_true h
          omega
      · rw [if_neg h3] at h
        have h3' : d.toNat < d2.toNat := of_decide_eq_true h
        omega
    · rw [if_neg h2] at h
      have h2' : b.toNat < b2.toNat := of_decide_eq_true h
      omega
  · rw [if_neg h1] at h
    have h1' : a.toNat < a2.toNat := of_decide_eq_true h
    omega

theorem updateD_cons (p : List Char × DaySchedule) (d : Diary) (k : List Char)
    (v : DaySchedule) :
    updateD (p :: d) k v = (if p.1 = k then (p.1, v) else p) :: updateD d k v := rfl

theorem lookupD_cons (p : List Char × DaySchedule) (d : Diary) (k : List Char) :
    lookupD (p :: d) k = if p.1 = k then some p.2 else lookupD d k := by
  unfold lookupD
  by_cases h : p.1 = k
  · rw [List.find?_cons_of_pos _ (by simp [h]), if_pos h]
    rfl
  · rw [List.find?_cons_of_neg _ (by simp [h]), if_neg h]

theorem lookupD_updateD_self (d : Diary) (k : List Char) (v : DaySchedule)
    (h : lookupD d k ≠ none) : lookupD (updateD d k v) k = some v := by
  induction d with
  | nil => simp [lookupD] at h
  | cons p ps ih =>
    rw [updateD_cons]
    by_cases hp : p.1 = k
    · rw [if_pos hp, lookupD_cons]
      simp [hp]
    · rw [if_neg hp, lookupD_cons, if_neg hp]
      rw [lookupD_cons, if_neg hp] at h
      exact ih h

theorem lookupD_updateD_ne (d : Diary) (k k2 : List Char) (v : DaySchedule)
    (h : k2 ≠ k) : lookupD (updateD d k v) k2 = lookupD d k2 := by
  induction d with
  | nil => rfl
  | cons p ps ih =>
    rw [updateD_cons]
    by_cases hp : p.1 = k
    · have hne : ¬ p.1 = k2 := by
        rw [hp]
        exact fun hh => h hh.symm
      rw [if_pos hp, lookupD_cons, lookupD_cons, if_neg hne]
      simp only [if_neg hne]
      exact ih
    · rw [if_neg hp, lookupD_cons, lookupD_cons]
      by_cases hp2 : p.1 = k2
      · rw [if_pos hp2, if_pos hp2]
      · rw [if_neg hp2, if_neg hp2]
        exact ih

/-- C10 ordering relation helper: the appointment sort key is total. -/
theorem appt_time_le_total (x y : Appt) :
    appt_time_le x y = true ∨ appt_time_le y x = true := lexLe_total x.time y.time

theorem appt_time_le_trans (x y z : Appt) (hxy : appt_time_le x y = true)
    (hyz : appt_time_le y z = true) : appt_time_le x z = true :=
  lexLe_trans x.time y.time z.time hxy hyz

/-- The appointment dict appended by `book_appointment`. -/
def booked_appt (q : TimeSlotQuery) : Appt :=
  { time := q.start_time ++ '-' :: q.end_time, activity := q.activity,
    type := chars "booked" }

/-- C6: booking on a date inside the horizon returns the new appointment
with kind `booked` and the requested interval and label, stores a day
whose appointment multiset is the old one plus the new appointment and
whose sequence is ordered by start time (for well-formed zero-padded
times), and leaves every other date untouched; booking or looking up a
date outside the horizon yields 404 / `None` and leaves the calendar
completely unchanged. -/
theorem book_appointment_appends_booked_sorted
    (diary : Diary) (q : TimeSlotQuery) (ds : DaySchedule)
    (hfound : lookupD diary q.date = some ds)
    (hwf : ∀ a ∈ ds.appointments, wf_time5 a.time = true)
    (hqwf : wf_time5 (q.start_time ++ '-' :: q.end_time) = true)
    (diary2 : Diary) (q2 : TimeSlotQuery) (hmiss : lookupD diary2 q2.date = none) :
    (∃ d2 appt, book_appointment diary q = .ok (d2, appt) ∧
      appt.type = chars "booked" ∧
      appt.time = q.start_time ++ '-' :: q.end_time ∧
      appt.activity = q.activity ∧
      ∃ ds2, lookupD d2 q.date = some ds2 ∧
        List.Perm ds2.appointments (ds.appointments ++ [appt]) ∧
        ds2.appointments.Pairwise (fun x y => start_minutes x.time ≤ start_minutes y.time) ∧
        (∀ k, k ≠ q.date → lookupD d2 k = lookupD diary k)) ∧
    get_schedule diary2 q2.date = none ∧
    book_appointment diary2 q2 = .error 404 ∧
    book_apply diary2 q2 = diary2 := by
  have hbook2 : book_appointment diary2 q2 = .error 404 := by
    unfold book_appointment
    rw [hmiss]
  have hbook : book_appointment diary q = .ok
      (updateD diary q.date
        { ds with appointments := sort_le appt_time_le (ds.appointments ++ [booked_appt q]) },
       booked_appt q) := by
    unfold book_appointment
    rw [hfound]
    rfl
  have happly : book_apply diary2 q2 = diary2 := by
    unfold book_apply
    rw [hbook2]
  have hmemwf : ∀ z : Appt,
      z ∈ sort_le appt_time_le (ds.appointments ++ [booked_appt q]) →
        wf_time5 z.time = true := by
    intro z hz
    rcases List.mem_append.mp ((sort_le_mem _ _ z).mp hz) with hz2 | hz2
    · exact hwf z hz2
    · have hz3 : z = booked_appt q := by simpa using hz2
      rw [hz3]
      exact hqwf
  refine ⟨⟨_, _, hbook, rfl, rfl, rfl,
    { ds with appointments := sort_le appt_time_le (ds.appointments ++ [booked_appt q]) },
    ?_, ?_, ?_, ?_⟩, hmiss, hbook2, happly⟩
  · exact lookupD_updateD_self diary q.date _
      (by rw [hfound]; exact fun hh => Option.noConfusion hh)
  · exact sort_le_perm _ _
  · have hpw := sort_le_pairwise appt_time_le appt_time_le_total appt_time_le_trans
      (ds.appointments ++ [booked_appt q])
    refine hpw.imp_of_mem ?_
    intro x y hx hy hxy
    exact lexLe_start_minutes _ _ (hmemwf x hx) (hmemwf y hy) hxy
  · intro k hk
    exact lookupD_updateD_ne diary q.date k _ hk

def c6_day : DaySchedule :=
  { date := chars "2025-01-01", day := chars "Wednesday",
    appointments := [⟨chars "10:00-12:00", chars "Work at office", chars "fixed"⟩,
                     ⟨chars "08:00-09:00", chars "Breakfast with Teddy", chars "flexible"⟩] }

def c6_diary : Diary := [(chars "2025-01-01", c6_day)]

def c6_query : TimeSlotQuery :=
  ⟨chars "2025-01-01", chars "14:00", chars "16:00", chars "Badminton match"⟩

def c6_query_missing : TimeSlotQuery :=
  ⟨chars "2025-01-15", chars "14:00", chars "16:00", chars "Badminton match"⟩

theorem book_appointment_appends_booked_sorted_inst :
    (∃ d2 appt, book_appointment c6_diary c6_query = .ok (d2, appt) ∧
      appt.type = chars "booked" ∧
      appt.time = c6_query.start_time ++ '-' :: c6_query.end_time ∧
      appt.activity = c6_query.activity ∧
      ∃ ds2, lookupD d2 c6_query.date = some ds2 ∧
        List.Perm ds2.appointments (c6_day.appointments ++ [appt]) ∧
        ds2.appointments.Pairwise (fun x y => start_minutes x.time ≤ start_minutes y.time) ∧
        (∀ k, k ≠ c6_query.date → lookupD d2 k = lookupD c6_diary k)) ∧
    get_schedule c6_diary c6_query_missing.date = none ∧
    book_appointment c6_diary c6_query_missing = .error 404 ∧
    book_apply c6_diary c6_query_missing = c6_diary :=
  book_appointment_appends_booked_sorted c6_diary c6_query c6_day
    (by decide) (by decide) (by decide) c6_diary c6_query_missing (by decide)
